import Mathlib

/-!
Verification of the a2a-autoscaling orchestration runtime.

Shallow embedding of:
- the Streamlit orchestrator (`streamlit_a2a_app.py`): execution plans,
  dependency-context augmentation, sequential/parallel plan execution over a
  Python-dict result store, response synthesis fallback, and the A2A client
  send path;
- the smart routing client (`src/clients/smart_routing_client.py`): sequential
  and hybrid (dependency-managed) plan execution;
- the reliability layer (`src/common/reliability.py`): circuit breaker states
  and transitions;
- the calculator agent executor (`src/agents/calculator/agent_executor.py`):
  the streaming adapter from internal generator items to task events.

Python dicts are modelled as insertion-ordered association lists with
overwrite-in-place semantics; exceptions as explicit outcome values; floats
(timestamps, timeouts) as rationals.
-/

/-! ## Python dict model (insertion-ordered, overwrite in place) -/

/-- A Python dict: insertion-ordered key/value pairs. -/
abbrev PyDict (κ α : Type) := List (κ × α)

/-- Python `d[k] = v`: overwrite in place if `k` is present, else append. -/
def PyDict.setItem {κ α : Type} [DecidableEq κ] : PyDict κ α → κ → α → PyDict κ α
  | [], k, v => [(k, v)]
  | (k', v') :: rest, k, v =>
      if k' = k then (k', v) :: rest else (k', v') :: PyDict.setItem rest k v

/-- Python `d.get(k)`: first (unique) binding of `k`, if any. -/
def PyDict.get? {κ α : Type} [DecidableEq κ] : PyDict κ α → κ → Option α
  | [], _ => none
  | (k', v') :: rest, k => if k' = k then some v' else PyDict.get? rest k

/-- Python `k in d`. -/
def PyDict.contains {κ α : Type} [DecidableEq κ] (d : PyDict κ α) (k : κ) : Bool :=
  (d.get? k).isSome

/-! ## Streamlit orchestrator (`streamlit_a2a_app.py`) -/

namespace StreamlitApp

/-- The `ExecutionStep` dataclass: one step of a multi-agent plan.
`dependencies` holds agent ids of prerequisite steps (default `[]`). -/
structure ExecutionStep where
  agent : String
  task : String
  dependencies : List String
  deriving DecidableEq, Repr

/-- The `ExecutionPlan` dataclass. -/
structure ExecutionPlan where
  steps : List ExecutionStep
  execution_type : String
  deriving DecidableEq, Repr

/-- Result dict returned by `A2AAgentClient.send_message` /
`_send_a2a_message`: `success` flag, `response` text (`""` when the key is
absent), optional `error` string. -/
structure AgentResult where
  success : Bool
  response : String
  error : Option String
  deriving DecidableEq, Repr

/-- Source `IntelligentOrchestrator._enhance_task_with_context`: prepend nothing and
return `task` unless both `dependencies` and `results` are non-empty and at
least one dependency has a successful, non-empty `response`; otherwise append
a context block of `dep + "_result: " + first 200 chars`. -/
def enhance_task_with_context (task : String) (dependencies : List String)
    (results : PyDict String AgentResult) : String :=
  if dependencies = [] ∨ results = [] then task
  else
    let context_parts := dependencies.filterMap fun dep =>
      match results.get? dep with
      | some r =>
          if r.success then
            if r.response ≠ "" then some (dep ++ "_result: " ++ r.response.take 200)
            else none
          else none
      | none => none
    if context_parts = [] then task
    else task ++ "\n\nContext from previous steps:\n" ++ String.intercalate "\n" context_parts

/-- The sequential branch of `IntelligentOrchestrator.execute_plan`.
`send agent task` models `_send_a2a_message` on the enhanced task (it always
returns a result dict); `available` models the keys of `agent_clients`.
Results are stored in a Python dict keyed by the step's agent name. -/
def execute_plan_seq (send : String → String → AgentResult) (available : List String) :
    List ExecutionStep → PyDict String AgentResult → PyDict String AgentResult
  | [], results => results
  | step :: rest, results =>
      let enhanced := enhance_task_with_context step.task step.dependencies results
      let results' :=
        if step.agent ∈ available then
          results.setItem step.agent (send step.agent enhanced)
        else
          results.setItem step.agent
            ⟨false, "", some ("Agent " ++ step.agent ++ " not available")⟩
      execute_plan_seq send available rest results'

/-- The parallel branch of `IntelligentOrchestrator.execute_plan`: only steps
with empty `dependencies` and an available agent are dispatched (raw task, no
context); results stored keyed by agent name in dispatch order. -/
def execute_plan_par (send : String → String → AgentResult) (available : List String)
    (steps : List ExecutionStep) : PyDict String AgentResult :=
  (steps.filter fun s => s.dependencies = [] ∧ s.agent ∈ available).foldl
    (fun results s => results.setItem s.agent (send s.agent s.task)) []

/-- Source `IntelligentOrchestrator.execute_plan`: dispatch on `execution_type`
(anything other than `"sequential"` / `"parallel"` returns the empty dict). -/
def execute_plan (send : String → String → AgentResult) (available : List String)
    (plan : ExecutionPlan) : PyDict String AgentResult :=
  if plan.execution_type = "sequential" then
    execute_plan_seq send available plan.steps []
  else if plan.execution_type = "parallel" then
    execute_plan_par send available plan.steps
  else []

/-- The fallback branch of `IntelligentOrchestrator.synthesize_response`
(taken when the LLM synthesis call raises): concatenate `"**{agent}**: {text}"`
for the successful results only, joined by blank lines. -/
def synthesize_fallback (results : PyDict String AgentResult) : String :=
  let response_parts := results.filterMap fun p =>
    if p.2.success then some ("**" ++ p.1 ++ "**: " ++ p.2.response) else none
  if response_parts = [] then "No successful responses received"
  else String.intercalate "\n\n" response_parts

end StreamlitApp

/-! ## A2A client send path (`A2AAgentClient._send_message_async`) -/

namespace StreamlitApp

/-- Outcome of a Python expression: a value, or a raised exception rendered
as its `str`. -/
inductive PyResult (α : Type) where
  | ok (value : α)
  | raised (msg : String)
  deriving DecidableEq, Repr

/-- One entry of a `parts` array in an A2A JSON response; the discriminator
may live under `"kind"` or the legacy `"type"` key, and any key may be
absent (`none`). -/
structure JsonPart where
  kind : Option String
  type : Option String
  text : Option String
  deriving DecidableEq, Repr

/-- One entry of `result["artifacts"]`. -/
structure JsonArtifact where
  parts : List JsonPart
  deriving DecidableEq, Repr

/-- The `result["status"]["message"]` member. -/
structure JsonMessage where
  parts : List JsonPart
  deriving DecidableEq, Repr

/-- The `result["status"]` member. -/
structure JsonStatus where
  message : Option JsonMessage
  deriving DecidableEq, Repr

/-- The `result` member of a JSON-RPC response. -/
structure JsonResult where
  artifacts : Option (List JsonArtifact)
  status : Option JsonStatus
  parts : Option (List JsonPart)
  deriving DecidableEq, Repr

/-- A parsed JSON-RPC response: the `"error"` member's message when present,
the `"result"` member when present, and `raw`, modelling the Python string
rendering `str(json_response)` that the code falls back to (and returns as
the `response` field when it carries the raw object). -/
structure JsonResponse where
  error : Option String
  result : Option JsonResult
  raw : String
  deriving DecidableEq, Repr

/-- Python truthiness of the running `content` variable: `None` and `""` are
falsy. -/
def pyTruthy (c : Option String) : Bool :=
  match c with
  | some s => s ≠ ""
  | none => false

/-- Path 1 of content extraction: collect the stripped, non-empty texts of
all artifact parts tagged `kind == "text"`. -/
def artifact_texts (artifacts : List JsonArtifact) : List String :=
  artifacts.flatMap fun a =>
    a.parts.filterMap fun p =>
      if p.kind = some "text" then
        match p.text with
        | some t => if t.trim ≠ "" then some t.trim else none
        | none => none
      else none

/-- The three-path content extraction of `_send_message_async` over a
`result` member: artifacts first, then the status message's first part,
then the first direct `result["parts"]` entry; each later path only runs
while `content` is still falsy. -/
def extract_content (result : JsonResult) : Option String :=
  let c1 : Option String :=
    match result.artifacts with
    | some artifacts =>
        if artifacts ≠ [] then
          let texts := artifact_texts artifacts
          if texts ≠ [] then some (String.intercalate "\n" texts) else none
        else none
    | none => none
  let c2 : Option String :=
    if pyTruthy c1 then c1
    else
      match result.status with
      | some status =>
          match status.message with
          | some msg =>
              match msg.parts with
              | p :: _ =>
                  match p.text with
                  | some t => some t
                  | none => c1
              | [] => c1
          | none => c1
      | none => c1
  if pyTruthy c2 then c2
  else
    match result.parts with
    | some (p :: _) =>
        if p.type = some "text" then
          match p.text with
          | some t => some t
          | none => c2
        else if p.kind = some "text" then
          match p.text with
          | some t => some t
          | none => c2
        else c2
    | _ => c2

/-- Source `A2AAgentClient._send_message_async`: the entire `try` block (card
resolution, HTTP POST, `raise_for_status`, JSON parsing) is modelled by the
`transport` outcome; `except Exception` converts any raise into a returned
failure dict, a JSON-RPC `error` member into a failure dict carrying the
error message, and an ok response into a success dict with the extracted
content (or the raw response rendering when no truthy content is found). -/
def send_message_async (transport : PyResult JsonResponse) : AgentResult :=
  match transport with
  | .raised e => ⟨false, "Error communicating with agent: " ++ e, some e⟩
  | .ok resp =>
      match resp.error with
      | some msg => ⟨false, resp.raw, some msg⟩
      | none =>
          let content :=
            match resp.result with
            | some result => extract_content result
            | none => none
          if pyTruthy content then ⟨true, content.getD "", none⟩
          else ⟨true, resp.raw, none⟩

/-- Source `IntelligentOrchestrator._send_a2a_message`: returns the client result,
converting any raise into a failure dict. -/
def send_a2a_message (sendOutcome : PyResult AgentResult) : AgentResult :=
  match sendOutcome with
  | .ok r => r
  | .raised e => ⟨false, "Error communicating with agent: " ++ e, some e⟩

/-- A result dict carries an `error` field whenever it is a failure. -/
def failHasError (r : AgentResult) : Prop :=
  r.success = false → r.error.isSome

end StreamlitApp

/-! ## Smart routing client (`src/clients/smart_routing_client.py`) -/

namespace SmartRouting

/-- One plan step dict: `{"step": n, "agent": ..., "query": ..., "depends_on": [...]}`. -/
structure RStep where
  step : Nat
  agent : String
  query : String
  depends_on : List Nat
  deriving DecidableEq, Repr

/-- One step result dict as produced by `_execute_step` (which catches every
exception and always returns a dict with a `success` flag). -/
structure RResult where
  step : Nat
  agent : String
  success : Bool
  error : Option String
  deriving DecidableEq, Repr

/-- The `ExecutionPlan` dataclass of the smart routing client. -/
structure ExecutionPlan where
  query : String
  steps : List RStep
  execution_type : String
  estimated_time : ℚ
  confidence : ℚ

/-- Source `_execute_step(step, previous_results)`, abstracted over the agent
behaviour: it consults the step and the `step_results` dict and always
returns a result dict (the source wraps its whole body in
`try/except Exception` returning `{"success": False, "error": ...}`),
so it is modelled as a total function. -/
abbrev StepExec := RStep → PyDict Nat RResult → RResult

/-- The sequential branch of `_execute_plan`: run steps in declaration order,
appending each result and recording it in `step_results[step["step"]]`. -/
def execute_plan_sequential (exec : StepExec) :
    List RStep → PyDict Nat RResult → List RResult
  | [], _ => []
  | step :: rest, step_results =>
      let result := exec step step_results
      result :: execute_plan_sequential exec rest (step_results.setItem step.step result)

/-- The `step_results` dict accumulated by the sequential branch after running
a list of steps. -/
def seq_step_results (exec : StepExec) :
    List RStep → PyDict Nat RResult → PyDict Nat RResult
  | [], step_results => step_results
  | step :: rest, step_results =>
      seq_step_results exec rest (step_results.setItem step.step (exec step step_results))

/-- The parallel branch of `_execute_plan`: only steps with a falsy
`depends_on` are launched (all against the initial empty `step_results`);
results are collected in declaration order. -/
def execute_plan_parallel (exec : StepExec) (steps : List RStep) : List RResult :=
  (steps.filter fun s => s.depends_on = []).map fun s => exec s []

/-- The readiness test of `_execute_hybrid_plan`: not yet completed and every
entry of `depends_on` already in `completed_steps` (regardless of success). -/
def readyPred (completed : Finset Nat) (s : RStep) : Bool :=
  !(decide (s.step ∈ completed)) && s.depends_on.all fun d => decide (d ∈ completed)

/-- Ready steps of one `while` iteration of `_execute_hybrid_plan`, in plan
declaration order. -/
def ready (steps : List RStep) (completed : Finset Nat) : List RStep :=
  steps.filter (readyPred completed)

/-- The `while` loop of `_execute_hybrid_plan`, one constructor-recursive step
per iteration.  `fuel` bounds the number of iterations; `hybridLoop_fuel_irrel`
below shows any fuel above `steps.length` gives the same answer, which is the
termination argument for the unbounded source loop (each iteration either
breaks on an empty ready set — the `"Circular dependency detected"` branch —
or completes at least one step).  Returns the result list and the final
`completed_steps` set. -/
def hybridLoopF (exec : StepExec) (steps : List RStep) :
    Nat → List RResult → PyDict Nat RResult → Finset Nat →
      List RResult × Finset Nat
  | 0, results, _, completed => (results, completed)
  | fuel + 1, results, step_results, completed =>
      if completed.card < steps.length then
        let ready_steps := ready steps completed
        if ready_steps = [] then (results, completed)
        else
          let batch := ready_steps.map fun s => exec s step_results
          hybridLoopF exec steps fuel (results ++ batch)
            ((ready_steps.zip batch).foldl
              (fun d p => d.setItem p.1.step p.2) step_results)
            (completed ∪ (ready_steps.map RStep.step).toFinset)
      else (results, completed)

end SmartRouting

namespace SmartRouting

/-- Source `_execute_hybrid_plan`: run the loop with enough fuel for all iterations
(the loop can run at most `steps.length` productive iterations). -/
def execute_hybrid_full (exec : StepExec) (steps : List RStep) :
    List RResult × Finset Nat :=
  hybridLoopF exec steps (steps.length + 1) [] [] ∅

/-- Source `_execute_hybrid_plan`, result list only. -/
def execute_hybrid_plan (exec : StepExec) (steps : List RStep) : List RResult :=
  (execute_hybrid_full exec steps).1

/-- Source `_execute_plan`: dispatch on `execution_type`; any other tag returns the
initial empty result list. -/
def execute_plan (exec : StepExec) (plan : ExecutionPlan) : List RResult :=
  if plan.execution_type = "sequential" then execute_plan_sequential exec plan.steps []
  else if plan.execution_type = "parallel" then execute_plan_parallel exec plan.steps
  else if plan.execution_type = "hybrid" then execute_hybrid_plan exec plan.steps
  else []

/-- A set of completed step numbers is dependency-closed for a plan when every
step whose dependencies all lie in the set has its number in the set. -/
def depClosed (steps : List RStep) (D : Finset Nat) : Prop :=
  ∀ s ∈ steps, (∀ d ∈ s.depends_on, d ∈ D) → s.step ∈ D

end SmartRouting

/-! ## Reliability layer (`src/common/reliability.py`) -/

namespace Reliability

/-- The `CircuitState` enum (`CLOSED` / `OPEN` / `HALF_OPEN`); `open` is a Lean
keyword so the middle constructor carries a trailing underscore. -/
inductive CircuitState where
  | closed
  | open_
  | half_open
  deriving DecidableEq, Repr

/-- The `CircuitBreakerConfig` dataclass (source defaults: threshold 5,
recovery timeout 60.0 s).  Timestamps and timeouts are floats in the source,
modelled as rationals. -/
structure CircuitBreakerConfig where
  failure_threshold : Nat
  recovery_timeout : ℚ
  name : String
  deriving DecidableEq, Repr

/-- The default `CircuitBreakerConfig()`. -/
def defaultConfig : CircuitBreakerConfig := ⟨5, 60, "default"⟩

/-- The mutable fields of a `CircuitBreaker` instance. -/
structure CircuitBreaker where
  config : CircuitBreakerConfig
  state : CircuitState
  failure_count : Nat
  last_failure_time : Option ℚ
  deriving DecidableEq, Repr

/-- Source `CircuitBreaker.__init__`. -/
def CircuitBreaker.init (config : CircuitBreakerConfig) : CircuitBreaker :=
  ⟨config, .closed, 0, none⟩

/-- Source `_should_attempt_reset` evaluated at wall-clock time `now`
(`time.time() - last_failure_time >= recovery_timeout`). -/
def CircuitBreaker.should_attempt_reset (b : CircuitBreaker) (now : ℚ) : Bool :=
  match b.last_failure_time with
  | none => true
  | some t => decide (b.config.recovery_timeout ≤ now - t)

/-- Source `_on_success`: reset the failure count and close the circuit. -/
def CircuitBreaker.on_success (b : CircuitBreaker) : CircuitBreaker :=
  { b with failure_count := 0, state := .closed }

/-- Source `_on_failure` at wall-clock time `now`: increment the count, stamp the
failure time, and open the circuit once the count reaches the threshold. -/
def CircuitBreaker.on_failure (b : CircuitBreaker) (now : ℚ) : CircuitBreaker :=
  let failure_count := b.failure_count + 1
  if b.config.failure_threshold ≤ failure_count then
    { b with failure_count := failure_count, last_failure_time := some now,
             state := .open_ }
  else
    { b with failure_count := failure_count, last_failure_time := some now }

/-- Outcome of the operation wrapped by `breaker.call()` (the `yield`):
it either returns or raises one of the counted `expected_exception_types`
(the default config counts every `Exception`). -/
inductive CallOutcome where
  | success
  | failure
  deriving DecidableEq, Repr

/-- Observable trace of one `async with breaker.call()` block:
whether the wrapped operation ran, whether a `CircuitBreakerOpenException`
was raised instead, the breaker state at the moment the operation ran, and
the breaker state afterwards. -/
structure CallTrace where
  executed : Bool
  circuit_open_error : Bool
  state_at_call : Option CircuitState
  final : CircuitBreaker
  deriving DecidableEq, Repr

/-- The body of `call` once admitted: run the operation, then
`_on_success` or `_on_failure`. -/
def CircuitBreaker.runAdmitted (b : CircuitBreaker) (now : ℚ)
    (outcome : CallOutcome) : CallTrace :=
  match outcome with
  | .success => ⟨true, false, some b.state, b.on_success⟩
  | .failure => ⟨true, false, some b.state, b.on_failure now⟩

/-- Source `CircuitBreaker.call` at wall-clock time `now`: an `OPEN` breaker either
transitions to `HALF_OPEN` (when the recovery timeout has elapsed) and runs
the operation, or rejects the call with `CircuitBreakerOpenException`
without running it; any other state runs the operation directly. -/
def CircuitBreaker.call (b : CircuitBreaker) (now : ℚ)
    (outcome : CallOutcome) : CallTrace :=
  if b.state = .open_ then
    if b.should_attempt_reset now then
      CircuitBreaker.runAdmitted { b with state := .half_open } now outcome
    else ⟨false, true, none, b⟩
  else CircuitBreaker.runAdmitted b now outcome

/-- Iterate `n` consecutive calls whose wrapped operation fails, all at time `now`. -/
def CircuitBreaker.iter_failures (b : CircuitBreaker) (now : ℚ) :
    Nat → CircuitBreaker
  | 0 => b
  | n + 1 => CircuitBreaker.iter_failures (b.call now .failure).final now n

/-- Iterate `n` consecutive calls whose wrapped operation succeeds, all at time `now`. -/
def CircuitBreaker.iter_successes (b : CircuitBreaker) (now : ℚ) :
    Nat → CircuitBreaker
  | 0 => b
  | n + 1 => CircuitBreaker.iter_successes (b.call now .success).final now n

end Reliability

/-! ## Calculator agent executor (`src/agents/calculator/agent_executor.py`) -/

namespace Calculator

/-- One item yielded by `self.agent.stream(...)`. -/
structure StreamItem where
  content : String
  is_task_complete : Bool
  require_user_input : Bool
  deriving DecidableEq, Repr

/-- A2A `TaskState` values used by the executor. -/
inductive TaskState where
  | submitted
  | working
  | input_required
  | completed
  | failed
  | canceled
  deriving DecidableEq, Repr

/-- Externally observable events emitted through the `TaskUpdater`:
status updates (with message text and `final` flag) and artifact additions. -/
inductive TaskEvent where
  | status (state : TaskState) (message : String) (final : Bool)
  | artifact (text : String) (name : String)
  deriving DecidableEq, Repr

/-- The item is neither complete nor requesting input, so the executor loop
emits a `working` update and continues. -/
def nonTerminal (it : StreamItem) : Bool :=
  !it.is_task_complete && !it.require_user_input

/-- The `async for item in self.agent.stream(...)` loop of
`CalculatorAgentExecutor.execute`.  `items` are the values the generator
yields; `err` is `some e` when the generator raises `e` after its last yield
(the surrounding `except Exception` then emits a final `failed` status).
A `break` ends the loop before the exception could be reached. -/
def executeEvents : List StreamItem → Option String → List TaskEvent
  | [], none => []
  | [], some e => [.status .failed ("Calculation failed: " ++ e) true]
  | item :: rest, err =>
      if !item.is_task_complete && !item.require_user_input then
        .status .working item.content false :: executeEvents rest err
      else if item.require_user_input then
        [.status .input_required item.content true]
      else
        [.artifact item.content "calculation_result", .status .completed "" true]

/-- The `working` updates for the maximal non-terminal prefix of the stream. -/
def workingPrefix (items : List StreamItem) : List TaskEvent :=
  (items.takeWhile nonTerminal).map fun it => .status .working it.content false

/-- Specification-side description of the adapter, following §4.3 of the
spec: one `working` update per non-terminal item; the first item requesting
input ends the stream with a final `input_required` status; the first
completing item adds an artifact and then marks the task `completed` (so a
completed task always carries an artifact); a generator exception ends the
task `failed` with an error message in the last status. -/
def executeEventsSpec (items : List StreamItem) (err : Option String) :
    List TaskEvent :=
  match items.dropWhile nonTerminal with
  | t :: _ =>
      if t.require_user_input then
        workingPrefix items ++ [.status .input_required t.content true]
      else
        workingPrefix items
          ++ [.artifact t.content "calculation_result", .status .completed "" true]
  | [] =>
      match err with
      | some e =>
          workingPrefix items ++ [.status .failed ("Calculation failed: " ++ e) true]
      | none => workingPrefix items

end Calculator

/-! ## Concrete fixtures used by counterexamples and witnesses -/

/-- A send function that echoes the dispatched task text back as a
successful response, making the dispatched prompt observable in the result. -/
def echoSend : String → String → StreamlitApp.AgentResult :=
  fun _ task => ⟨true, task, none⟩

/-- A two-step sequential plan that references the same agent twice. -/
def dupAgentPlan : StreamlitApp.ExecutionPlan :=
  ⟨[⟨"calculator", "a", []⟩, ⟨"calculator", "b", []⟩], "sequential"⟩

/-- A two-step sequential plan (research, then weather) with empty declared
dependency lists, as the planner's sequential plans commonly carry. -/
def seqCtxPlan : StreamlitApp.ExecutionPlan :=
  ⟨[⟨"research", "q1", []⟩, ⟨"weather", "q2", []⟩], "sequential"⟩

/-- A step executor that succeeds on every step. -/
def cexec : SmartRouting.StepExec :=
  fun s _ => ⟨s.step, s.agent, true, none⟩

/-- A step executor that fails exactly on step 1. -/
def exFail : SmartRouting.StepExec :=
  fun s _ => ⟨s.step, s.agent, decide (s.step ≠ 1), none⟩

/-- Smart-routing steps: step 2 depends on step 1. -/
def rs1 : SmartRouting.RStep := ⟨1, "research", "q1", []⟩

/-- Smart-routing steps: step 2 depends on step 1. -/
def rs2 : SmartRouting.RStep := ⟨2, "weather", "q2", [1]⟩

/-- A three-step hybrid plan whose first two steps form a dependency cycle. -/
def cyc1 : SmartRouting.RStep := ⟨1, "a", "q1", [2]⟩

/-- A three-step hybrid plan whose first two steps form a dependency cycle. -/
def cyc2 : SmartRouting.RStep := ⟨2, "b", "q2", [1]⟩

/-- A three-step hybrid plan whose first two steps form a dependency cycle. -/
def cyc3 : SmartRouting.RStep := ⟨3, "c", "q3", []⟩

/-- A closed breaker with the default config that has already counted four
consecutive failures (one short of the threshold of five). -/
def breakerAtFourFailures : Reliability.CircuitBreaker :=
  ⟨Reliability.defaultConfig, .closed, 4, some 0⟩

/-! ## Supporting lemmas -/

theorem PyDict.get_setItem_self {κ α : Type} [DecidableEq κ]
    (d : PyDict κ α) (k : κ) (v : α) : (d.setItem k v).get? k = some v := by
  induction d with
  | nil => simp [PyDict.setItem, PyDict.get?]
  | cons hd tl ih =>
      obtain ⟨k', v'⟩ := hd
      by_cases h : k' = k <;> simp [PyDict.setItem, PyDict.get?, h, ih]

theorem PyDict.keys_setItem {κ α : Type} [DecidableEq κ]
    (d : PyDict κ α) (k : κ) (v : α) :
    (d.setItem k v).map Prod.fst =
      if k ∈ d.map Prod.fst then d.map Prod.fst else d.map Prod.fst ++ [k] := by
  induction d with
  | nil => simp [PyDict.setItem]
  | cons hd tl ih =>
      obtain ⟨k', v'⟩ := hd
      by_cases h : k' = k
      · subst h; simp [PyDict.setItem]
      · have hne : ¬(k = k') := fun hh => h hh.symm
        by_cases hm : k ∈ tl.map Prod.fst <;>
          simp [PyDict.setItem, h, ih, hm, List.mem_cons, hne]

theorem PyDict.keysFinset_setItem {κ α : Type} [DecidableEq κ]
    (d : PyDict κ α) (k : κ) (v : α) :
    ((d.setItem k v).map Prod.fst).toFinset = insert k (d.map Prod.fst).toFinset := by
  rw [PyDict.keys_setItem]
  by_cases hm : k ∈ d.map Prod.fst
  · simp [hm, Finset.insert_eq_self.mpr (List.mem_toFinset.mpr hm)]
  · simp [hm, Finset.insert_eq_self]
    exact Finset.union_comm _ _

theorem PyDict.nodupKeys_setItem {κ α : Type} [DecidableEq κ]
    (d : PyDict κ α) (k : κ) (v : α) (hnd : (d.map Prod.fst).Nodup) :
    ((d.setItem k v).map Prod.fst).Nodup := by
  rw [PyDict.keys_setItem]
  by_cases hm : k ∈ d.map Prod.fst <;> simp [hm, hnd, List.nodup_append]

theorem PyDict.length_eq_card_keys {κ α : Type} [DecidableEq κ]
    (d : PyDict κ α) (hnd : (d.map Prod.fst).Nodup) :
    d.length = (d.map Prod.fst).toFinset.card := by
  rw [List.toFinset_card_of_nodup hnd, List.length_map]

theorem PyDict.mem_setItem {κ α : Type} [DecidableEq κ]
    {d : PyDict κ α} {k : κ} {v : α} {p : κ × α} :
    p ∈ d.setItem k v → p ∈ d ∨ p = (k, v) := by
  induction d with
  | nil =>
      intro h
      simp only [PyDict.setItem, List.mem_singleton] at h
      exact Or.inr h
  | cons hd tl ih =>
      obtain ⟨k', v'⟩ := hd
      intro h
      simp only [PyDict.setItem] at h
      by_cases he : k' = k
      · rw [if_pos he] at h
        rcases List.mem_cons.mp h with h | h
        · exact Or.inr (by rw [h, he])
        · exact Or.inl (List.mem_cons_of_mem _ h)
      · rw [if_neg he] at h
        rcases List.mem_cons.mp h with h | h
        · exact Or.inl (h ▸ List.mem_cons_self _ _)
        · rcases ih h with h1 | h1
          · exact Or.inl (List.mem_cons_of_mem _ h1)
          · exact Or.inr h1

namespace SmartRouting

theorem mem_ready {steps : List RStep} {completed : Finset Nat} {s : RStep}
    (h : s ∈ ready steps completed) :
    s ∈ steps ∧ s.step ∉ completed ∧ ∀ d ∈ s.depends_on, d ∈ completed := by
  obtain ⟨hmem, hpred⟩ := List.mem_filter.mp h
  simp only [readyPred, Bool.and_eq_true, Bool.not_eq_true', decide_eq_false_iff_not,
    List.all_eq_true, decide_eq_true_eq] at hpred
  exact ⟨hmem, hpred.1, hpred.2⟩

theorem card_lt_of_ready_cons {steps : List RStep} {completed : Finset Nat}
    {s0 : RStep} {rs : List RStep} (h : ready steps completed = s0 :: rs) :
    completed.card < (completed ∪ ((s0 :: rs).map RStep.step).toFinset).card := by
  have hs0 : s0 ∈ ready steps completed := by rw [h]; exact List.mem_cons_self _ _
  have hnot : s0.step ∉ completed := (mem_ready hs0).2.1
  refine Finset.card_lt_card ?_
  rw [Finset.ssubset_iff_of_subset (fun x hx => Finset.mem_union_left _ hx)]
  refine ⟨s0.step, Finset.mem_union_right _ ?_, hnot⟩
  simp

theorem hybridLoopF_fuel_irrel (exec : StepExec) (steps : List RStep) :
    ∀ f1 f2 (completed : Finset Nat) results step_results,
      steps.length - completed.card < f1 → steps.length - completed.card < f2 →
      hybridLoopF exec steps f1 results step_results completed =
        hybridLoopF exec steps f2 results step_results completed := by
  intro f1
  induction f1 with
  | zero => intro f2 completed results step_results h1 _; omega
  | succ f1 ih =>
      intro f2 completed results step_results h1 h2
      match f2 with
      | 0 => omega
      | f2 + 1 =>
          simp only [hybridLoopF]
          by_cases hlt : completed.card < steps.length
          · simp only [if_pos hlt]
            by_cases hre : ready steps completed = []
            · simp only [if_pos hre]
            · simp only [if_neg hre]
              obtain ⟨s0, rs, hr⟩ := List.exists_cons_of_ne_nil hre
              have hcard := card_lt_of_ready_cons hr
              rw [← hr] at hcard
              exact ih f2 _ _ _ (by omega) (by omega)
          · simp only [if_neg hlt]

end SmartRouting

namespace SmartRouting

theorem nodup_ready_map {steps : List RStep} (hnd : (steps.map RStep.step).Nodup)
    (completed : Finset Nat) :
    ((ready steps completed).map RStep.step).Nodup := by
  have hsub : List.Sublist ((ready steps completed).map RStep.step)
      (steps.map RStep.step) :=
    (List.filter_sublist steps).map RStep.step
  exact hnd.sublist hsub

theorem card_union_ready {steps : List RStep} (hnd : (steps.map RStep.step).Nodup)
    (completed : Finset Nat) :
    (completed ∪ ((ready steps completed).map RStep.step).toFinset).card
      = completed.card + (ready steps completed).length := by
  have hnodup := nodup_ready_map hnd completed
  have hdisj : Disjoint completed ((ready steps completed).map RStep.step).toFinset := by
    rw [Finset.disjoint_right]
    intro x hx
    obtain ⟨s, hs, hstep⟩ := List.mem_map.mp (List.mem_toFinset.mp hx)
    exact hstep ▸ (mem_ready hs).2.1
  rw [Finset.card_union_of_disjoint hdisj, List.toFinset_card_of_nodup hnodup,
    List.length_map]

theorem depClosed_of_ready_nil {steps : List RStep} {completed : Finset Nat}
    (hre : ready steps completed = []) : depClosed steps completed := by
  intro s hs hdeps
  have hall := List.filter_eq_nil_iff.mp hre s hs
  simp only [readyPred, Bool.and_eq_true, Bool.not_eq_true', decide_eq_false_iff_not,
    List.all_eq_true, decide_eq_true_eq, not_and] at hall
  by_cases hmem : s.step ∈ completed
  · exact hmem
  · exact absurd (fun d hd => hdeps d hd) (hall hmem)

theorem hybridLoopF_invariant (exec : StepExec) (steps : List RStep)
    (hnd : (steps.map RStep.step).Nodup) :
    ∀ (fuel : Nat) (completed : Finset Nat) (results : List RResult)
      (step_results : PyDict Nat RResult),
      steps.length - completed.card < fuel →
      completed ⊆ (steps.map RStep.step).toFinset →
      (hybridLoopF exec steps fuel results step_results completed).1.length
            + completed.card
          = results.length
            + (hybridLoopF exec steps fuel results step_results completed).2.card
        ∧ completed ⊆ (hybridLoopF exec steps fuel results step_results completed).2
        ∧ (hybridLoopF exec steps fuel results step_results completed).2
            ⊆ (steps.map RStep.step).toFinset
        ∧ depClosed steps (hybridLoopF exec steps fuel results step_results completed).2
        ∧ ∀ D : Finset Nat, depClosed steps D → completed ⊆ D →
            (hybridLoopF exec steps fuel results step_results completed).2 ⊆ D := by
  intro fuel
  induction fuel with
  | zero => intro completed results step_results hmeas _; omega
  | succ fuel ih =>
      intro completed results step_results hmeas hsub
      simp only [hybridLoopF]
      by_cases hlt : completed.card < steps.length
      · rw [if_pos hlt]
        by_cases hre : ready steps completed = []
        · rw [if_pos hre]
          exact ⟨rfl, le_refl _, hsub, depClosed_of_ready_nil hre, fun D _ hD => hD⟩
        · rw [if_neg hre]
          obtain ⟨s0, rs, hr⟩ := List.exists_cons_of_ne_nil hre
          have hcard0 := card_lt_of_ready_cons hr
          rw [← hr] at hcard0
          have hcard_eq := card_union_ready hnd completed
          have hsub' :
              completed ∪ ((ready steps completed).map RStep.step).toFinset
                ⊆ (steps.map RStep.step).toFinset := by
            intro x hx
            rcases Finset.mem_union.mp hx with hx | hx
            · exact hsub hx
            · obtain ⟨s, hs, hstep⟩ := List.mem_map.mp (List.mem_toFinset.mp hx)
              exact List.mem_toFinset.mpr (hstep ▸ List.mem_map_of_mem RStep.step
                (mem_ready hs).1)
          obtain ⟨ih1, ih2, ih3, ih4, ih5⟩ :=
            ih (completed ∪ ((ready steps completed).map RStep.step).toFinset)
              (results ++ (ready steps completed).map fun s => exec s step_results)
              (((ready steps completed).zip
                  ((ready steps completed).map fun s => exec s step_results)).foldl
                (fun d p => d.setItem p.1.step p.2) step_results)
              (by omega) hsub'
          refine ⟨?_, ?_, ih3, ih4, ?_⟩
          · have hlen :
                (results ++ (ready steps completed).map fun s =>
                    exec s step_results).length
                  = results.length + (ready steps completed).length := by
              rw [List.length_append, List.length_map]
            omega
          · exact fun x hx => ih2 (Finset.mem_union_left _ hx)
          · intro D hclosed hD
            refine ih5 D hclosed ?_
            intro x hx
            rcases Finset.mem_union.mp hx with hx | hx
            · exact hD hx
            · obtain ⟨s, hs, hstep⟩ := List.mem_map.mp (List.mem_toFinset.mp hx)
              obtain ⟨hsmem, _, hdeps⟩ := mem_ready hs
              exact hstep ▸ hclosed s hsmem fun d hd => hD (hdeps d hd)
      · rw [if_neg hlt]
        have hcardle : (steps.map RStep.step).toFinset.card ≤ completed.card := by
          have := List.toFinset_card_le (steps.map RStep.step)
          rw [List.length_map] at this
          omega
        have heq : completed = (steps.map RStep.step).toFinset :=
          Finset.eq_of_subset_of_card_le hsub hcardle
        refine ⟨rfl, le_refl _, hsub, ?_, fun D _ hD => hD⟩
        intro s hs _
        rw [heq]
        exact List.mem_toFinset.mpr (List.mem_map_of_mem RStep.step hs)

theorem hybridLoopF_exec_indep (exec exec' : StepExec) (steps : List RStep) :
    ∀ (fuel : Nat) (completed : Finset Nat) results results'
      (sr sr' : PyDict Nat RResult),
      results.length = results'.length →
      (hybridLoopF exec steps fuel results sr completed).2 =
          (hybridLoopF exec' steps fuel results' sr' completed).2 ∧
        (hybridLoopF exec steps fuel results sr completed).1.length =
          (hybridLoopF exec' steps fuel results' sr' completed).1.length := by
  intro fuel
  induction fuel with
  | zero => intro completed results results' sr sr' hlen; exact ⟨rfl, hlen⟩
  | succ fuel ih =>
      intro completed results results' sr sr' hlen
      simp only [hybridLoopF]
      by_cases hlt : completed.card < steps.length
      · rw [if_pos hlt, if_pos hlt]
        by_cases hre : ready steps completed = []
        · rw [if_pos hre, if_pos hre]; exact ⟨rfl, hlen⟩
        · rw [if_neg hre, if_neg hre]
          exact ih _ _ _ _ _ (by simp [hlen])
      · rw [if_neg hlt, if_neg hlt]; exact ⟨rfl, hlen⟩

theorem execute_plan_sequential_length (exec : StepExec) :
    ∀ (steps : List RStep) (sr : PyDict Nat RResult),
      (execute_plan_sequential exec steps sr).length = steps.length := by
  intro steps
  induction steps with
  | nil => intro sr; rfl
  | cons s rest ih => intro sr; simp [execute_plan_sequential, ih]

theorem execute_plan_sequential_get (exec : StepExec) :
    ∀ (steps : List RStep) (sr : PyDict Nat RResult) (i : Nat) (hi : i < steps.length),
      (execute_plan_sequential exec steps sr).get
          ⟨i, by rw [execute_plan_sequential_length]; exact hi⟩
        = exec (steps.get ⟨i, hi⟩) (seq_step_results exec (steps.take i) sr) := by
  intro steps
  induction steps with
  | nil => intro sr i hi; exact absurd hi (by simp)
  | cons s rest ih =>
      intro sr i hi
      match i with
      | 0 => rfl
      | i + 1 =>
          simp only [execute_plan_sequential, List.get_cons_succ, List.take_succ_cons,
            List.get]
          exact ih (sr.setItem s.step (exec s sr)) i (Nat.lt_of_succ_lt_succ hi)

end SmartRouting

namespace StreamlitApp

theorem execute_plan_seq_length (send : String → String → AgentResult)
    (available : List String) :
    ∀ (steps : List ExecutionStep) (d : PyDict String AgentResult),
      (d.map Prod.fst).Nodup →
      (execute_plan_seq send available steps d).length
        = ((steps.map ExecutionStep.agent).toFinset
            ∪ (d.map Prod.fst).toFinset).card := by
  intro steps
  induction steps with
  | nil =>
      intro d hnd
      simp only [execute_plan_seq, List.map_nil, List.toFinset_nil, Finset.empty_union]
      exact PyDict.length_eq_card_keys d hnd
  | cons s rest ih =>
      intro d hnd
      simp only [execute_plan_seq]
      by_cases hav : s.agent ∈ available
      · rw [if_pos hav, ih _ (PyDict.nodupKeys_setItem _ _ _ hnd),
          PyDict.keysFinset_setItem, Finset.union_insert, List.map_cons,
          List.toFinset_cons, Finset.insert_union]
      · rw [if_neg hav, ih _ (PyDict.nodupKeys_setItem _ _ _ hnd),
          PyDict.keysFinset_setItem, Finset.union_insert, List.map_cons,
          List.toFinset_cons, Finset.insert_union]

end StreamlitApp

namespace StreamlitApp

theorem send_message_async_failHasError (t : PyResult JsonResponse) :
    failHasError (send_message_async t) := by
  cases t with
  | raised e => intro _; rfl
  | ok resp =>
      cases hres : resp.error with
      | some msg => intro _; simp [send_message_async, hres]
      | none =>
          simp only [send_message_async, hres, failHasError]
          split <;> intro h <;> exact absurd h (by simp)

theorem send_a2a_message_failHasError (o : PyResult AgentResult)
    (h : ∀ r, o = .ok r → failHasError r) :
    failHasError (send_a2a_message o) := by
  cases o with
  | ok r => exact h r rfl
  | raised e => intro _; rfl

theorem execute_plan_seq_preserves (send : String → String → AgentResult)
    (available : List String) (hsend : ∀ a t, failHasError (send a t)) :
    ∀ (steps : List ExecutionStep) (d : PyDict String AgentResult),
      (∀ p ∈ d, failHasError p.2) →
      ∀ p ∈ execute_plan_seq send available steps d, failHasError p.2 := by
  intro steps
  induction steps with
  | nil => intro d hd; exact hd
  | cons s rest ih =>
      intro d hd
      simp only [execute_plan_seq]
      by_cases hav : s.agent ∈ available
      · rw [if_pos hav]
        refine ih _ ?_
        intro p hp
        rcases PyDict.mem_setItem hp with hp | hp
        · exact hd p hp
        · rw [hp]; exact hsend _ _
      · rw [if_neg hav]
        refine ih _ ?_
        intro p hp
        rcases PyDict.mem_setItem hp with hp | hp
        · exact hd p hp
        · rw [hp]; intro _; rfl

theorem execute_plan_par_preserves (send : String → String → AgentResult)
    (available : List String) (hsend : ∀ a t, failHasError (send a t)) :
    ∀ (steps : List ExecutionStep),
      ∀ p ∈ execute_plan_par send available steps, failHasError p.2 := by
  have key : ∀ (l : List ExecutionStep) (d : PyDict String AgentResult),
      (∀ p ∈ d, failHasError p.2) →
      ∀ p ∈ l.foldl (fun results s => results.setItem s.agent (send s.agent s.task)) d,
        failHasError p.2 := by
    intro l
    induction l with
    | nil => intro d hd; exact hd
    | cons s rest ih =>
        intro d hd
        simp only [List.foldl_cons]
        refine ih _ ?_
        intro p hp
        rcases PyDict.mem_setItem hp with hp | hp
        · exact hd p hp
        · rw [hp]; exact hsend _ _
  intro steps
  exact key _ [] (by intro p hp; exact absurd hp (List.not_mem_nil p))

theorem execute_plan_preserves (send : String → String → AgentResult)
    (available : List String) (hsend : ∀ a t, failHasError (send a t))
    (plan : ExecutionPlan) :
    ∀ p ∈ execute_plan send available plan, failHasError p.2 := by
  unfold execute_plan
  split
  · exact execute_plan_seq_preserves send available hsend plan.steps []
      (by intro p hp; exact absurd hp (List.not_mem_nil p))
  · split
    · exact execute_plan_par_preserves send available hsend plan.steps
    · intro p hp; exact absurd hp (List.not_mem_nil p)

end StreamlitApp

namespace Calculator

theorem executeEventsSpec_cons_nonTerminal {item : StreamItem}
    {rest : List StreamItem} {err : Option String}
    (h : nonTerminal item = true) :
    executeEventsSpec (item :: rest) err
      = .status .working item.content false :: executeEventsSpec rest err := by
  simp only [executeEventsSpec, workingPrefix, List.dropWhile_cons,
    List.takeWhile_cons, h, if_true, List.map_cons]
  cases hd : rest.dropWhile nonTerminal with
  | nil => cases err <;> simp
  | cons t ts => by_cases hr : t.require_user_input = true <;> simp [hr]

theorem executeEvents_eq_spec :
    ∀ (items : List StreamItem) (err : Option String),
      executeEvents items err = executeEventsSpec items err := by
  intro items
  induction items with
  | nil => intro err; cases err <;> rfl
  | cons item rest ih =>
      intro err
      by_cases h : nonTerminal item = true
      · have h' : (!item.is_task_complete && !item.require_user_input) = true := h
        simp only [executeEvents, h', if_true]
        rw [executeEventsSpec_cons_nonTerminal h, ih]
      · have h' : (!item.is_task_complete && !item.require_user_input) = false := by
          simpa [nonTerminal] using h
        by_cases hr : item.require_user_input = true
        · simp [executeEvents, executeEventsSpec, workingPrefix, h', hr, nonTerminal,
            List.dropWhile_cons, List.takeWhile_cons]
        · have hc : item.is_task_complete = true := by
            rcases Bool.and_eq_false_iff.mp h' with h1 | h1
            · simpa using h1
            · exact absurd (by simpa using h1) (by simp [hr])
          simp [executeEvents, executeEventsSpec, workingPrefix, h', hr, hc,
            nonTerminal, List.dropWhile_cons, List.takeWhile_cons]
end Calculator

/-! ## C1 -/

/-- C1, counterexample.  The claim says every acyclic plan run returns
exactly `|P.steps|` results with separate results for duplicate references
to the same agent.  `IntelligentOrchestrator.execute_plan` keys its result
dict by agent name, so the two-step plan `dupAgentPlan` (two steps, both for
`calculator`) produces a single result: the second step overwrites the
first.  The echo send function shows the surviving entry is the second
step's. -/
theorem C1_counterexample :
    (StreamlitApp.execute_plan echoSend ["calculator"] dupAgentPlan).length = 1
      ∧ dupAgentPlan.steps.length = 2
      ∧ StreamlitApp.execute_plan echoSend ["calculator"] dupAgentPlan
          = [("calculator", ⟨true, "b", none⟩)] := by
  refine ⟨rfl, rfl, ?_⟩
  rfl

/-- C1, amended.  The smart routing client's sequential `_execute_plan`
returns exactly `|P.steps|` results, in declaration order, one per step
(including failed steps — the run never aborts, since the step executor is
total); but the Streamlit orchestrator's `execute_plan` keys results by
agent name, so it returns one result per *distinct* agent referenced and
duplicate references to the same agent collapse into a single entry. -/
theorem C1_amended :
    (∀ (exec : SmartRouting.StepExec) (steps : List SmartRouting.RStep)
        (sr : PyDict Nat SmartRouting.RResult),
       (SmartRouting.execute_plan_sequential exec steps sr).length = steps.length)
    ∧ (∀ (exec : SmartRouting.StepExec) (steps : List SmartRouting.RStep)
        (sr : PyDict Nat SmartRouting.RResult) (i : Nat) (hi : i < steps.length),
       (SmartRouting.execute_plan_sequential exec steps sr).get
           ⟨i, by rw [SmartRouting.execute_plan_sequential_length]; exact hi⟩
         = exec (steps.get ⟨i, hi⟩)
             (SmartRouting.seq_step_results exec (steps.take i) sr))
    ∧ (∀ (send : String → String → StreamlitApp.AgentResult)
        (available : List String) (steps : List StreamlitApp.ExecutionStep),
       (StreamlitApp.execute_plan_seq send available steps []).length
         = (steps.map StreamlitApp.ExecutionStep.agent).toFinset.card) := by
  refine ⟨?_, ?_, ?_⟩
  · intro exec steps sr
    exact SmartRouting.execute_plan_sequential_length exec steps sr
  · intro exec steps sr i hi
    exact SmartRouting.execute_plan_sequential_get exec steps sr i hi
  · intro send available steps
    have h := StreamlitApp.execute_plan_seq_length send available steps [] (by simp)
    simpa using h

/-- C1, witness for the amended theorem at a concrete two-step plan:
the second result of the sequential smart-routing run is the executor
applied to the second step with the first step's result recorded. -/
theorem C1_amended_witness :
    (SmartRouting.execute_plan_sequential cexec [rs1, rs2] []).get
        ⟨1, by rw [SmartRouting.execute_plan_sequential_length]; decide⟩
      = cexec rs2 (SmartRouting.seq_step_results cexec [rs1] []) := by
  have h := C1_amended.2.1 cexec [rs1, rs2] [] 1 (by decide)
  exact h

/-! ## C2 -/

/-- C2, counterexample.  The claim says a step whose dependency failed is
not dispatched and is recorded as `StepResult{success=false,
error="dependency_failed"}`.  In `_execute_hybrid_plan`, dependency
tracking uses only `completed_steps`, which also receives failed steps, so
with `exFail` failing step 1, step 2 (which depends on step 1) is still
dispatched and its recorded result is the executor's own successful result —
no `dependency_failed` record exists anywhere in the output. -/
theorem C2_counterexample :
    SmartRouting.execute_hybrid_plan exFail [rs1, rs2]
      = [⟨1, "research", false, none⟩, ⟨2, "weather", true, none⟩] := by
  rfl

/-- C2, amended.  A step is dispatched by the hybrid executor once all its
`depends_on` entries have *completed*, successfully or not: the scheduler
never consults the success flag, so the set of completed steps and the
number of results are identical for any two step executors (in particular
for one that fails every step and one that succeeds on every step), and
every recorded result is an output of the step executor itself on a plan
step — the scheduler never synthesizes a `dependency_failed` result. -/
theorem C2_amended :
    (∀ (exec exec' : SmartRouting.StepExec) (steps : List SmartRouting.RStep),
       (SmartRouting.execute_hybrid_full exec steps).2
           = (SmartRouting.execute_hybrid_full exec' steps).2
         ∧ (SmartRouting.execute_hybrid_plan exec steps).length
           = (SmartRouting.execute_hybrid_plan exec' steps).length)
    ∧ (∀ (exec : SmartRouting.StepExec) (steps : List SmartRouting.RStep),
       ∀ r ∈ SmartRouting.execute_hybrid_plan exec steps,
         ∃ s ∈ steps, ∃ sr, r = exec s sr) := by
  constructor
  · intro exec exec' steps
    exact SmartRouting.hybridLoopF_exec_indep exec exec' steps _ _ _ _ _ _ rfl
  · intro exec steps
    have key : ∀ (fuel : Nat) (completed : Finset Nat) (results : List SmartRouting.RResult)
        (sr : PyDict Nat SmartRouting.RResult),
        (∀ r ∈ results, ∃ s ∈ steps, ∃ d, r = exec s d) →
        ∀ r ∈ (SmartRouting.hybridLoopF exec steps fuel results sr completed).1,
          ∃ s ∈ steps, ∃ d, r = exec s d := by
      intro fuel
      induction fuel with
      | zero => intro completed results sr hres; exact hres
      | succ fuel ih =>
          intro completed results sr hres
          simp only [SmartRouting.hybridLoopF]
          by_cases hlt : completed.card < steps.length
          · rw [if_pos hlt]
            by_cases hre : SmartRouting.ready steps completed = []
            · rw [if_pos hre]; exact hres
            · rw [if_neg hre]
              refine ih _ _ _ ?_
              intro r hr
              rcases List.mem_append.mp hr with hr | hr
              · exact hres r hr
              · obtain ⟨s, hs, hexec⟩ := List.mem_map.mp hr
                exact ⟨s, (SmartRouting.mem_ready hs).1, sr, hexec.symm⟩
          · rw [if_neg hlt]; exact hres
    exact key _ _ _ _ (by intro r hr; exact absurd hr (List.not_mem_nil r))

/-- C2, witness for the amended theorem: the first recorded result of the
concrete failing run is an executor output on a plan step. -/
theorem C2_amended_witness :
    ∃ s ∈ [rs1, rs2], ∃ sr,
      (⟨1, "research", false, none⟩ : SmartRouting.RResult) = exFail s sr := by
  have h := C2_amended.2 exFail [rs1, rs2] ⟨1, "research", false, none⟩ (by decide)
  exact h

/-! ## C3 -/

/-- C3, counterexample.  The claim says sequential steps get a predecessor
context block even when their declared `dependencies` list is empty.
`execute_plan` passes exactly `step.dependencies` to
`_enhance_task_with_context`, which returns the task unchanged when that
list is empty, so with the echo send function the second step of
`seqCtxPlan` is dispatched with its raw task text `"q2"` — no
`research_result:` context block — even though the first step succeeded
with a non-empty response. -/
theorem C3_counterexample :
    (StreamlitApp.execute_plan echoSend ["research", "weather"] seqCtxPlan).get?
        "weather" = some ⟨true, "q2", none⟩
      ∧ StreamlitApp.enhance_task_with_context "q2" []
          [("research", ⟨true, "q1", none⟩)] = "q2" := by
  exact ⟨rfl, rfl⟩

/-- C3, amended.  Context augmentation happens only for a step's *declared*
dependencies: with an empty `dependencies` list the task is dispatched
verbatim (sequential predecessors are NOT implicitly used), and for a
declared dependency whose recorded result succeeded with non-empty text the
task is extended with a context block line
`dep + "_result: " + first 200 characters`. -/
theorem C3_amended :
    (∀ (task : String) (results : PyDict String StreamlitApp.AgentResult),
       StreamlitApp.enhance_task_with_context task [] results = task)
    ∧ (∀ (task dep : String) (r : StreamlitApp.AgentResult)
        (results : PyDict String StreamlitApp.AgentResult),
       results.get? dep = some r → r.success = true → r.response ≠ "" →
       results ≠ [] →
       StreamlitApp.enhance_task_with_context task [dep] results
         = task ++ "\n\nContext from previous steps:\n"
             ++ (dep ++ "_result: " ++ r.response.take 200)) := by
  constructor
  · intro task results
    simp [StreamlitApp.enhance_task_with_context]
  · intro task dep r results hget hsucc hresp hne
    have hsingle : String.intercalate "\n" [dep ++ "_result: " ++ r.response.take 200]
        = dep ++ "_result: " ++ r.response.take 200 := rfl
    simp [StreamlitApp.enhance_task_with_context, hget, hsucc, hresp, hne, hsingle]

/-- C3, witness for the amended theorem at a concrete result store. -/
theorem C3_amended_witness :
    StreamlitApp.enhance_task_with_context "q2" ["research"]
        [("research", ⟨true, "q1", none⟩)]
      = "q2" ++ "\n\nContext from previous steps:\n"
          ++ ("research" ++ "_result: " ++ ("q1" : String).take 200) := by
  exact C3_amended.2 "q2" "research" ⟨true, "q1", none⟩
    [("research", ⟨true, "q1", none⟩)] rfl rfl (by decide) (by decide)

/-! ## C4 -/

/-- C4: for a breaker in `open` state with a recorded last failure time, a
call before `recovery_timeout` seconds have elapsed is rejected with
`CircuitBreakerOpenException` and the wrapped operation never runs (the
breaker is unchanged); a call once `recovery_timeout` has elapsed moves the
breaker to `half_open` and the wrapped operation executes. -/
theorem C4_breaker_open (b : Reliability.CircuitBreaker) (now t : ℚ)
    (outcome : Reliability.CallOutcome)
    (hopen : b.state = .open_) (htime : b.last_failure_time = some t) :
    (now - t < b.config.recovery_timeout →
        b.call now outcome = ⟨false, true, none, b⟩)
      ∧ (b.config.recovery_timeout ≤ now - t →
        (b.call now outcome).executed = true
          ∧ (b.call now outcome).state_at_call = some .half_open) := by
  constructor
  · intro hlt
    have hreset : b.should_attempt_reset now = false := by
      simp [Reliability.CircuitBreaker.should_attempt_reset, htime]
      linarith
    simp [Reliability.CircuitBreaker.call, hopen, hreset]
  · intro hle
    have hreset : b.should_attempt_reset now = true := by
      simp [Reliability.CircuitBreaker.should_attempt_reset, htime, hle]
    simp only [Reliability.CircuitBreaker.call, hopen, if_pos, hreset, if_true]
    cases outcome <;> exact ⟨rfl, rfl⟩

/-- At time 30, a breaker last failed at time 0 is still inside the default
60 s recovery window. -/
theorem elapsed_30_lt_default_recovery :
    (30 : ℚ) - 0 < Reliability.defaultConfig.recovery_timeout := by
  norm_num [Reliability.defaultConfig]

/-- By time 61, the default 60 s recovery window since a failure at time 0
has elapsed. -/
theorem default_recovery_le_elapsed_61 :
    Reliability.defaultConfig.recovery_timeout ≤ (61 : ℚ) - 0 := by
  norm_num [Reliability.defaultConfig]

/-- C4, witness: a breaker opened at time 0 with the default 60 s recovery
timeout rejects a call at time 30 unchanged, and admits a call at time 61
in `half_open` state. -/
theorem C4_breaker_open_witness :
    ((⟨Reliability.defaultConfig, .open_, 5, some 0⟩ :
          Reliability.CircuitBreaker).call 30 .failure
        = ⟨false, true, none, ⟨Reliability.defaultConfig, .open_, 5, some 0⟩⟩)
      ∧ ((⟨Reliability.defaultConfig, .open_, 5, some 0⟩ :
          Reliability.CircuitBreaker).call 61 .failure).executed = true
      ∧ ((⟨Reliability.defaultConfig, .open_, 5, some 0⟩ :
          Reliability.CircuitBreaker).call 61 .failure).state_at_call
          = some .half_open := by
  refine ⟨?_, ?_, ?_⟩
  · exact (C4_breaker_open _ 30 0 .failure rfl rfl).1 elapsed_30_lt_default_recovery
  · exact ((C4_breaker_open _ 61 0 .failure rfl rfl).2 default_recovery_le_elapsed_61).1
  · exact ((C4_breaker_open _ 61 0 .failure rfl rfl).2 default_recovery_le_elapsed_61).2

/-! ## C5 -/

namespace Reliability

theorem iter_failures_closed :
    ∀ (n : Nat) (b : CircuitBreaker) (now : ℚ),
      b.state = .closed → b.failure_count + n < b.config.failure_threshold →
      (b.iter_failures now n).state = .closed
        ∧ (b.iter_failures now n).failure_count = b.failure_count + n
        ∧ (b.iter_failures now n).config = b.config := by
  intro n
  induction n with
  | zero => intro b now hclosed _; exact ⟨hclosed, rfl, rfl⟩
  | succ n ih =>
      intro b now hclosed hlt
      have hstep : (b.call now .failure).final
          = { b with failure_count := b.failure_count + 1,
                     last_failure_time := some now } := by
        have hne : ¬(b.state = .open_) := by rw [hclosed]; intro h; cases h
        have hth : ¬(b.config.failure_threshold ≤ b.failure_count + 1) := by omega
        simp [CircuitBreaker.call, hne, CircuitBreaker.runAdmitted,
          CircuitBreaker.on_failure, hth]
      have hgoal : b.iter_failures now (n + 1)
          = ({ b with failure_count := b.failure_count + 1,
                      last_failure_time := some now }).iter_failures now n := by
        show (b.call now .failure).final.iter_failures now n = _
        rw [hstep]
      rw [hgoal]
      have := ih { b with failure_count := b.failure_count + 1,
                          last_failure_time := some now } now hclosed (by simp; omega)
      simpa [Nat.add_assoc, Nat.add_comm 1 n] using this

theorem iter_failures_opens :
    ∀ (n : Nat) (b : CircuitBreaker) (now : ℚ),
      b.state = .closed → b.config.failure_threshold = b.failure_count + n →
      0 < n → (b.iter_failures now n).state = .open_ := by
  intro n
  induction n with
  | zero => intro b now _ _ h; omega
  | succ n ih =>
      intro b now hclosed hth _
      have hne : ¬(b.state = .open_) := by rw [hclosed]; intro h; cases h
      rcases Nat.eq_zero_or_pos n with hn | hn
      · subst hn
        have hge : b.config.failure_threshold ≤ b.failure_count + 1 := by omega
        show ((b.call now .failure).final.iter_failures now 0).state = .open_
        simp [CircuitBreaker.call, hne, CircuitBreaker.runAdmitted,
          CircuitBreaker.on_failure, hge, CircuitBreaker.iter_failures]
      · have hstep : (b.call now .failure).final
            = { b with failure_count := b.failure_count + 1,
                       last_failure_time := some now } := by
          have hth' : ¬(b.config.failure_threshold ≤ b.failure_count + 1) := by omega
          simp [CircuitBreaker.call, hne, CircuitBreaker.runAdmitted,
            CircuitBreaker.on_failure, hth']
        show ((b.call now .failure).final.iter_failures now n).state = .open_
        rw [hstep]
        exact ih _ now hclosed (by simp; omega) hn

end Reliability

/-- C5: a counted failure on a `closed` breaker increments `failure_count`,
and the breaker transitions to `open` exactly when the incremented count
reaches `failure_threshold`; starting from a fresh breaker, fewer
consecutive counted failures than the threshold leave it `closed` (with the
count equal to the number of failures), while `failure_threshold`
consecutive failures open it. -/
theorem C5_failure_threshold :
    (∀ (b : Reliability.CircuitBreaker) (now : ℚ), b.state = .closed →
       (b.call now .failure).final.failure_count = b.failure_count + 1
         ∧ ((b.call now .failure).final.state = .open_ ↔
             b.config.failure_threshold ≤ b.failure_count + 1))
      ∧ (∀ (cfg : Reliability.CircuitBreakerConfig) (now : ℚ) (n : Nat),
          n < cfg.failure_threshold →
          ((Reliability.CircuitBreaker.init cfg).iter_failures now n).state = .closed
            ∧ ((Reliability.CircuitBreaker.init cfg).iter_failures now n).failure_count
              = n)
      ∧ (∀ (cfg : Reliability.CircuitBreakerConfig) (now : ℚ),
          0 < cfg.failure_threshold →
          ((Reliability.CircuitBreaker.init cfg).iter_failures now
              cfg.failure_threshold).state = .open_) := by
  refine ⟨?_, ?_, ?_⟩
  · intro b now hclosed
    have hne : ¬(b.state = .open_) := by rw [hclosed]; intro h; cases h
    constructor
    · by_cases hth : b.config.failure_threshold ≤ b.failure_count + 1 <;>
        simp [Reliability.CircuitBreaker.call, hne, Reliability.CircuitBreaker.runAdmitted,
          Reliability.CircuitBreaker.on_failure, hth]
    · by_cases hth : b.config.failure_threshold ≤ b.failure_count + 1 <;>
        simp [Reliability.CircuitBreaker.call, hne, Reliability.CircuitBreaker.runAdmitted,
          Reliability.CircuitBreaker.on_failure, hth, hclosed]
  · intro cfg now n hn
    have h := Reliability.iter_failures_closed n (Reliability.CircuitBreaker.init cfg)
      now rfl (by simpa [Reliability.CircuitBreaker.init] using hn)
    exact ⟨h.1, by simpa [Reliability.CircuitBreaker.init] using h.2.1⟩
  · intro cfg now hpos
    exact Reliability.iter_failures_opens cfg.failure_threshold
      (Reliability.CircuitBreaker.init cfg) now rfl
      (by simp [Reliability.CircuitBreaker.init]) hpos

/-- C5, witness: with the default threshold 5, four consecutive failures
leave a fresh breaker closed with count 4, and five open it. -/
theorem C5_failure_threshold_witness :
    ((Reliability.CircuitBreaker.init Reliability.defaultConfig).iter_failures 0 4).state
        = .closed
      ∧ ((Reliability.CircuitBreaker.init Reliability.defaultConfig).iter_failures 0
          4).failure_count = 4
      ∧ ((Reliability.CircuitBreaker.init Reliability.defaultConfig).iter_failures 0
          5).state = .open_ := by
  refine ⟨?_, ?_, ?_⟩
  · exact (C5_failure_threshold.2.1 Reliability.defaultConfig 0 4 (by decide)).1
  · exact (C5_failure_threshold.2.1 Reliability.defaultConfig 0 4 (by decide)).2
  · exact C5_failure_threshold.2.2 Reliability.defaultConfig 0 (by decide)

/-! ## C6 -/

namespace Reliability

theorem iter_successes_reset :
    ∀ (k : Nat) (b : CircuitBreaker) (now : ℚ), b.state = .closed →
      b.iter_successes now (k + 1)
        = { b with failure_count := 0, state := .closed } := by
  intro k
  induction k with
  | zero =>
      intro b now hclosed
      have hne : ¬(b.state = .open_) := by rw [hclosed]; intro h; cases h
      show (b.call now .success).final.iter_successes now 0 = _
      simp [CircuitBreaker.call, hne, CircuitBreaker.runAdmitted,
        CircuitBreaker.on_success, CircuitBreaker.iter_successes]
  | succ k ih =>
      intro b now hclosed
      have hne : ¬(b.state = .open_) := by rw [hclosed]; intro h; cases h
      have hstep : (b.call now .success).final
          = { b with failure_count := 0, state := .closed } := by
        simp [CircuitBreaker.call, hne, CircuitBreaker.runAdmitted,
          CircuitBreaker.on_success]
      show (b.call now .success).final.iter_successes now (k + 1) = _
      rw [hstep, ih _ now rfl]

end Reliability

/-- C6, counterexample.  The claim says a closed breaker at
`failure_threshold - 1` that sees one success and then one failure ends up
`open`.  But `_on_success` resets `failure_count` to zero, so after the
success the subsequent failure only brings the count to 1 and the breaker
stays `closed`. -/
theorem C6_counterexample :
    breakerAtFourFailures.failure_count + 1
        = Reliability.defaultConfig.failure_threshold
      ∧ (((breakerAtFourFailures.call 1 .success).final.call 2 .failure).final).state
        = .closed
      ∧ (((breakerAtFourFailures.call 1 .success).final.call 2 .failure).final).failure_count
        = 1 := by
  exact ⟨rfl, rfl, rfl⟩

/-- C6, amended.  For a closed breaker at `failure_count =
failure_threshold - 1` (with threshold at least 2), one or more successful
calls followed by one failed call leave the breaker `closed` with
`failure_count = 1`, because `_on_success` resets the failure count. -/
theorem C6_amended (b : Reliability.CircuitBreaker) (now1 now2 : ℚ) (k : Nat)
    (hclosed : b.state = .closed)
    (_hcount : b.failure_count = b.config.failure_threshold - 1)
    (hth : 2 ≤ b.config.failure_threshold) :
    (((b.iter_successes now1 (k + 1)).call now2 .failure).final).state = .closed
      ∧ (((b.iter_successes now1 (k + 1)).call now2 .failure).final).failure_count
        = 1 := by
  rw [Reliability.iter_successes_reset k b now1 hclosed]
  have hne : ¬(Reliability.CircuitState.closed = Reliability.CircuitState.open_) := by
    intro h; cases h
  have hth' : ¬(b.config.failure_threshold ≤ 0 + 1) := by omega
  constructor <;>
    simp [Reliability.CircuitBreaker.call, hne, Reliability.CircuitBreaker.runAdmitted,
      Reliability.CircuitBreaker.on_failure, hth']

/-- C6, witness for the amended theorem at the concrete breaker with four
counted failures under the default config. -/
theorem C6_amended_witness :
    (((breakerAtFourFailures.iter_successes 1 1).call 2 .failure).final).state
        = .closed
      ∧ (((breakerAtFourFailures.iter_successes 1 1).call 2 .failure).final).failure_count
        = 1 := by
  exact C6_amended breakerAtFourFailures 1 2 0 rfl (by decide) (by decide)

/-! ## C7 -/

namespace Calculator

theorem completed_not_mem_workingPrefix (items : List StreamItem) :
    TaskEvent.status .completed "" true ∉ workingPrefix items := by
  simp only [workingPrefix, List.mem_map, not_exists, not_and]
  intro it _ h
  cases h

end Calculator

/-- C7: the streaming adapter of `CalculatorAgentExecutor.execute` realises
the spec's state sequence: each generator item that is neither complete nor
requesting input yields one `working` status update; the first item with
`require_user_input` ends the stream with a final `input_required` status;
the first completing item adds an artifact and then a final `completed`
status — hence a completed task always carries at least one artifact — and
a generator exception ends the task `failed` with an error message in the
last status.  Stated as: the event trace equals the specification-side
trace, and any trace containing the `completed` status also contains a
`calculation_result` artifact. -/
theorem C7_streaming_adapter :
    (∀ (items : List Calculator.StreamItem) (err : Option String),
       Calculator.executeEvents items err = Calculator.executeEventsSpec items err)
      ∧ (∀ (items : List Calculator.StreamItem) (err : Option String),
        Calculator.TaskEvent.status .completed "" true
            ∈ Calculator.executeEvents items err →
        ∃ t, Calculator.TaskEvent.artifact t "calculation_result"
            ∈ Calculator.executeEvents items err) := by
  refine ⟨Calculator.executeEvents_eq_spec, ?_⟩
  intro items err hmem
  rw [Calculator.executeEvents_eq_spec] at hmem ⊢
  unfold Calculator.executeEventsSpec at hmem ⊢
  cases hd : items.dropWhile Calculator.nonTerminal with
  | cons t ts =>
      rw [hd] at hmem
      dsimp only at hmem ⊢
      by_cases hr : t.require_user_input = true
      · rw [if_pos hr] at hmem
        rcases List.mem_append.mp hmem with h | h
        · exact absurd h (Calculator.completed_not_mem_workingPrefix items)
        · simp at h
      · rw [if_neg hr]
        exact ⟨t.content, by simp⟩
  | nil =>
      rw [hd] at hmem
      cases err with
      | some e =>
          dsimp only at hmem
          rcases List.mem_append.mp hmem with h | h
          · exact absurd h (Calculator.completed_not_mem_workingPrefix items)
          · simp at h
      | none =>
          dsimp only at hmem
          exact absurd hmem (Calculator.completed_not_mem_workingPrefix items)

/-- C7, witness: a one-item stream that completes with content `"42"`
produces an artifact. -/
theorem C7_streaming_adapter_witness :
    ∃ t, Calculator.TaskEvent.artifact t "calculation_result"
        ∈ Calculator.executeEvents [⟨"42", true, false⟩] none := by
  exact C7_streaming_adapter.2 [⟨"42", true, false⟩] none (by decide)

/-! ## C8 -/

/-- C8, counterexample.  The claim says the fallback synthesis includes one
`"**{agent}**: {text}"` entry per step result, failed (non-canceled) steps
appearing with an explicit error marker.  The fallback branch of
`synthesize_response` filters on `result.get("success")`, so a failed
`weather` result is omitted entirely: the output is exactly the single
calculator line and mentions neither `weather` nor its error. -/
theorem C8_counterexample :
    StreamlitApp.synthesize_fallback
        [("calculator", ⟨true, "42", none⟩), ("weather", ⟨false, "", some "boom"⟩)]
      = "**calculator**: 42" := by
  rfl

namespace StreamlitApp

theorem filterMap_success_all (results : PyDict String AgentResult)
    (h : ∀ p ∈ results, p.2.success = true) :
    results.filterMap (fun p =>
        if p.2.success then some ("**" ++ p.1 ++ "**: " ++ p.2.response) else none)
      = results.map fun p => "**" ++ p.1 ++ "**: " ++ p.2.response := by
  induction results with
  | nil => rfl
  | cons p rest ih =>
      rw [List.filterMap_cons, List.map_cons]
      rw [if_pos (h p (List.mem_cons_self _ _))]
      rw [ih fun q hq => h q (List.mem_cons_of_mem _ hq)]

end StreamlitApp

/-- C8, amended.  On LLM failure the synthesizer falls back to the
concatenation of `"**{agent}**: {text}"` entries joined by blank lines,
preserving result-dict order, but over the *successful* results only:
removing a failed entry anywhere does not change the output, an
all-successful result dict yields exactly the joined entries in order, and
when no result succeeded the fallback is the fixed string
`"No successful responses received"`. -/
theorem C8_amended :
    (∀ (pre post : PyDict String StreamlitApp.AgentResult) (agent : String)
        (r : StreamlitApp.AgentResult), r.success = false →
       StreamlitApp.synthesize_fallback (pre ++ (agent, r) :: post)
         = StreamlitApp.synthesize_fallback (pre ++ post))
      ∧ (∀ results : PyDict String StreamlitApp.AgentResult,
        (∀ p ∈ results, p.2.success = true) → results ≠ [] →
        StreamlitApp.synthesize_fallback results
          = String.intercalate "\n\n"
              (results.map fun p => "**" ++ p.1 ++ "**: " ++ p.2.response))
      ∧ (∀ results : PyDict String StreamlitApp.AgentResult,
        (∀ p ∈ results, p.2.success = false) →
        StreamlitApp.synthesize_fallback results
          = "No successful responses received") := by
  refine ⟨?_, ?_, ?_⟩
  · intro pre post agent r hfail
    have hfm : (pre ++ (agent, r) :: post).filterMap (fun p =>
          if p.2.success then some ("**" ++ p.1 ++ "**: " ++ p.2.response) else none)
        = (pre ++ post).filterMap (fun p =>
          if p.2.success then some ("**" ++ p.1 ++ "**: " ++ p.2.response) else none) := by
      simp [List.filterMap_append, List.filterMap_cons, hfail]
    simp only [StreamlitApp.synthesize_fallback]
    rw [hfm]
  · intro results hall hne
    rw [StreamlitApp.synthesize_fallback,
      StreamlitApp.filterMap_success_all results hall]
    rw [if_neg (by simpa using hne)]
  · intro results hall
    have hnil : results.filterMap (fun p =>
        if p.2.success then some ("**" ++ p.1 ++ "**: " ++ p.2.response) else none)
        = [] := by
      rw [List.filterMap_eq_nil_iff]
      intro p hp
      rw [hall p hp]
      rfl
    rw [StreamlitApp.synthesize_fallback, hnil]
    rfl

/-- C8, witness for the amended theorem: dropping the failed `weather`
entry leaves the fallback output unchanged. -/
theorem C8_amended_witness :
    StreamlitApp.synthesize_fallback
        ([("calculator", ⟨true, "42", none⟩)]
          ++ ("weather", ⟨false, "", some "boom"⟩) :: [])
      = StreamlitApp.synthesize_fallback ([("calculator", ⟨true, "42", none⟩)] ++ []) := by
  exact C8_amended.1 [("calculator", ⟨true, "42", none⟩)] []
    "weather" ⟨false, "", some "boom"⟩ rfl

/-! ## C9 -/

/-- C9: any exception raised inside the `_send_message_async` `try` block is
caught and converted to a returned dict with `success=false` and the error
string (never re-raised), and consequently plan execution is a total
function whose every failed entry carries an `error` field — a remote
failure can never abort the run with an exception. -/
theorem C9_no_exception_propagation :
    (∀ e : String,
       StreamlitApp.send_message_async (.raised e)
         = ⟨false, "Error communicating with agent: " ++ e, some e⟩)
      ∧ (∀ (outcomeOf : String → String → StreamlitApp.PyResult StreamlitApp.JsonResponse)
          (available : List String) (plan : StreamlitApp.ExecutionPlan),
        ∀ p ∈ StreamlitApp.execute_plan
            (fun a t => StreamlitApp.send_message_async (outcomeOf a t)) available plan,
          p.2.success = false → p.2.error.isSome) := by
  constructor
  · intro e; rfl
  · intro outcomeOf available plan
    exact StreamlitApp.execute_plan_preserves _ available
      (fun a t => StreamlitApp.send_message_async_failHasError (outcomeOf a t)) plan

/-- C9, witness: with a transport that always raises, the run still returns
a result entry, and that failed entry carries the error. -/
theorem C9_no_exception_propagation_witness :
    ((⟨false, "Error communicating with agent: boom", some "boom"⟩ :
        StreamlitApp.AgentResult).error).isSome := by
  exact C9_no_exception_propagation.2 (fun _ _ => .raised "boom") ["calculator"]
    ⟨[⟨"calculator", "2+2", []⟩], "sequential"⟩
    ("calculator", ⟨false, "Error communicating with agent: boom", some "boom"⟩)
    (by decide) rfl

/-! ## C10 -/

/-- C10: the hybrid executor terminates on every plan, cyclic dependencies
included: its unbounded `while` loop runs at most `steps.length` productive
iterations (any fuel above `steps.length` yields the same, stable result),
and — for plans with distinct step numbers — it returns exactly one result
per step in the set of completed steps, which is dependency-closed and
minimal among dependency-closed sets: precisely the steps whose dependency
chains are satisfiable, silently omitting steps caught in a cycle. -/
theorem C10_hybrid_termination (exec : SmartRouting.StepExec)
    (steps : List SmartRouting.RStep)
    (hnd : (steps.map SmartRouting.RStep.step).Nodup) :
    (∀ fuel : Nat, steps.length < fuel →
       SmartRouting.hybridLoopF exec steps fuel [] [] ∅
         = SmartRouting.execute_hybrid_full exec steps)
      ∧ (SmartRouting.execute_hybrid_plan exec steps).length
        = (SmartRouting.execute_hybrid_full exec steps).2.card
      ∧ SmartRouting.depClosed steps (SmartRouting.execute_hybrid_full exec steps).2
      ∧ ∀ D : Finset Nat, SmartRouting.depClosed steps D →
          (SmartRouting.execute_hybrid_full exec steps).2 ⊆ D := by
  have hmeas : steps.length - (∅ : Finset ℕ).card < steps.length + 1 := by simp
  have hsub : (∅ : Finset ℕ) ⊆ (steps.map SmartRouting.RStep.step).toFinset :=
    Finset.empty_subset _
  obtain ⟨h1, _, _, h4, h5⟩ :=
    SmartRouting.hybridLoopF_invariant exec steps hnd (steps.length + 1) ∅ [] []
      hmeas hsub
  refine ⟨?_, ?_, h4, ?_⟩
  · intro fuel hfuel
    exact SmartRouting.hybridLoopF_fuel_irrel exec steps fuel (steps.length + 1)
      ∅ [] [] (by simpa using hfuel) (by simp)
  · simpa [SmartRouting.execute_hybrid_plan, SmartRouting.execute_hybrid_full]
      using h1
  · intro D hD
    exact h5 D hD (Finset.empty_subset _)

/-- C10, witness: the three-step plan whose first two steps form a cycle
terminates with one result per completed step. -/
theorem C10_hybrid_termination_witness :
    (SmartRouting.execute_hybrid_plan cexec [cyc1, cyc2, cyc3]).length
      = (SmartRouting.execute_hybrid_full cexec [cyc1, cyc2, cyc3]).2.card := by
  exact (C10_hybrid_termination cexec [cyc1, cyc2, cyc3] (by decide)).2.1
